import Mathlib

/-!
Shallow embedding of the stream-feature negotiation engine of
`sleekxmpp/componentjabberd2.py` (class `ComponentJabberd2`) and the
`Bind` stanza class of `sleekxmpp/stanza/bind.py`, together with proofs
about the registry, the negotiation walk, the connection-state reset,
the `connect` entry point, the `password` property and the `Bind`
interface sets.
-/

namespace SleekXMPP

/-- An announced feature set (the features interface of the received
stanza): the names the peer advertises for the current stream
generation. -/
abbrev Features := List String

/-- A stream-feature handler: receives the features stanza and returns a
truthiness value (`handler(features)` in the walk). -/
abbrev Handler := Features → Bool

/-- The ordering key stored in `self._stream_feature_order`: the pair
`(order, name)` exactly as the Python code stores it. -/
abbrev Key := Nat × String

/-- Python tuple comparison `(order1, name1) <= (order2, name2)`:
lexicographic, integers first, then the name string. -/
def keyLE (a b : Key) : Prop :=
  a.1 < b.1 ∨ (a.1 = b.1 ∧ a.2 ≤ b.2)

/-- Strict version of the `(order, name)` comparison. -/
def keyLT (a b : Key) : Prop :=
  a.1 < b.1 ∨ (a.1 = b.1 ∧ a.2 < b.2)

instance (a b : Key) : Decidable (keyLE a b) :=
  inferInstanceAs (Decidable (a.1 < b.1 ∨ (a.1 = b.1 ∧ a.2 ≤ b.2)))

instance (a b : Key) : Decidable (keyLT a b) :=
  inferInstanceAs (Decidable (a.1 < b.1 ∨ (a.1 = b.1 ∧ a.2 < b.2)))

/-- Boolean form of `keyLT`, used to state list-wide facts without
internal quantifiers. -/
def keyLTb (a b : Key) : Bool := decide (keyLT a b)

instance : IsTotal Key keyLE where
  total a b := by
    rcases Nat.lt_trichotomy a.1 b.1 with h | h | h
    · exact Or.inl (Or.inl h)
    · rcases le_total a.2 b.2 with h2 | h2
      · exact Or.inl (Or.inr ⟨h, h2⟩)
      · exact Or.inr (Or.inr ⟨h.symm, h2⟩)
    · exact Or.inr (Or.inl h)

instance : IsTrans Key keyLE where
  trans a b c hab hbc := by
    rcases hab with h1 | ⟨e1, s1⟩
    · rcases hbc with h2 | ⟨e2, _⟩
      · exact Or.inl (h1.trans h2)
      · exact Or.inl (e2 ▸ h1)
    · rcases hbc with h2 | ⟨e2, s2⟩
      · exact Or.inl (e1 ▸ h2)
      · exact Or.inr ⟨e1.trans e2, s1.trans s2⟩

/-- The state of the feature registry held by `ComponentJabberd2`:
`_stream_feature_handlers` (a dict from name to `(handler, restart)`)
and `_stream_feature_order` (a list of `(order, name)` pairs, kept
sorted by the Python code). -/
structure Registry where
  handlers : String → Option (Handler × Bool)
  order : List Key

/-- The registry at the end of `__init__` before any registration:
`self._stream_feature_handlers = {}`, `self._stream_feature_order = []`. -/
def Registry.empty : Registry :=
  { handlers := fun _ => none, order := [] }

/-- The method `register_feature(name, handler, restart=False,
order=5000)`: stores `(handler, restart)` under `name` in the handler
dict, appends `(order, name)` to the order list and sorts it (the Python
sort on the tuple list; the comparison is a total order with antisymmetry
on the pairs, so every sort of the appended list produces this result). -/
def register_feature (r : Registry) (name : String) (handler : Handler)
    (restart : Bool) (order : Nat) : Registry :=
  { handlers := fun k => if k = name then some (handler, restart) else r.handlers k,
    order := List.insertionSort keyLE (r.order ++ [(order, name)]) }

/-- The method `unregister_feature(name, order)`: deletes the
handler-dict entry for `name` when present, then removes the exact
`(order, name)` pair from the order list and re-sorts.  The Python list
remove raises `ValueError` when the pair is absent; the deletion of the
handler entry has already taken effect at that point, so the result is
the pair of the returned value (`none` models the raised error) and the
final object state. -/
def unregister_feature (r : Registry) (name : String) (order : Nat) :
    Option Registry × Registry :=
  let handlers' : String → Option (Handler × Bool) :=
    if (r.handlers name).isSome then
      fun k => if k = name then none else r.handlers k
    else r.handlers
  if (order, name) ∈ r.order then
    let r' : Registry :=
      { handlers := handlers',
        order := List.insertionSort keyLE (r.order.erase (order, name)) }
    (some r', r')
  else
    (none, { r with handlers := handlers' })

/-- One call of `register_feature` with its four arguments, in source
parameter order. -/
structure RegCall where
  name : String
  handler : Handler
  restart : Bool
  order : Nat

/-- A sequence of `register_feature` calls applied in order. -/
def registerAll : Registry → List RegCall → Registry
  | r, [] => r
  | r, c :: cs => registerAll (register_feature r c.name c.handler c.restart c.order) cs

/-- The negotiation walk of `_handle_stream_features`: iterate the
`(order, name)` list; for each name announced, look the handler up in the
dict (`none` models the `KeyError` when the name is absent) and invoke it;
when the handler result is truthy and the restart flag is set, stop at
once.  Returns the list of `(order, name)` entries whose handlers were
invoked and whether a restart was requested. -/
def featureWalk (handlers : String → Option (Handler × Bool)) (fs : Features) :
    List Key → Option (List Key × Bool)
  | [] => some ([], false)
  | p :: rest =>
    if p.2 ∈ fs then
      match handlers p.2 with
      | none => none
      | some (h, restart) =>
        if h fs && restart then
          some ([p], true)
        else
          (featureWalk handlers fs rest).map (fun q => (p :: q.1, q.2))
    else featureWalk handlers fs rest

/-- The method `_handle_stream_features(features)`: run the walk over
the stored order list; when no restart truncates the walk, emit the
stream_negotiated event (the third component lists the events emitted). -/
def handle_stream_features (r : Registry) (fs : Features) :
    Option (List Key × Bool × List String) :=
  (featureWalk r.handlers fs r.order).map
    (fun q => (q.1, q.2, if q.2 then [] else ["stream_negotiated"]))

/-- The coarse connection state tracked on the instance: the four boolean
flags set in `__init__` (authenticated, sessionstarted, bound, bindfail)
and the `features` set. -/
structure ConnectionState where
  authenticated : Bool
  sessionstarted : Bool
  bound : Bool
  bindfail : Bool
  features : List String

/-- The zero connection state, as established at the end of `__init__`:
all four flags `False` and `features` the empty set. -/
def ConnectionState.zero : ConnectionState :=
  { authenticated := false, sessionstarted := false, bound := false,
    bindfail := false, features := [] }

/-- The method `_reset_connection_state(event=None)`: assigns `False` to
the four flags and the empty set to `features`, ignoring the prior values
and the event payload. -/
def _reset_connection_state (s : ConnectionState) : ConnectionState :=
  { s with authenticated := false, sessionstarted := false, bound := false,
           bindfail := false, features := [] }

/-- Modelled from the spec: the event dispatcher (`add_event_handler` /
`event`, living in `BaseXMPP`/`XMLStream`) is not under `src/`.
`__init__` registers `_reset_connection_state` for the `connected` event,
and per the spec the registered handler runs synchronously when
`connected` fires, strictly before the features stanza of the new stream
generation is dispatched to `_handle_stream_features`.  This function
therefore gives the connection state that the first feature handler of a
new generation observes, given the state left over from the previous
generation. -/
def stateAtGenerationStart (s : ConnectionState) : ConnectionState :=
  _reset_connection_state s

/-- The method `connect(address=tuple(), reattempt=True, use_tls=True,
use_ssl=False)`: the body clears the session event, records the expected server name, and
then evaluates `address[0]` and `address[1]`, passing them to
`XMLStream.connect` (an external collaborator, modelled here as returning
the arguments it receives).  Tuple indexing is modelled with `List.get?`;
`none` models the IndexError Python raises when the tuple is shorter than
the index requires.  No code path of the method resolves a host before
the two indexing expressions are evaluated. -/
def connect {α : Type} (address : List α)
    (reattempt use_tls use_ssl : Bool) :
    Option (α × α × Bool × Bool × Bool) :=
  match address.get? 0, address.get? 1 with
  | some host, some port => some (host, port, use_tls, use_ssl, reattempt)
  | _, _ => none

namespace Bind

/-- The `interfaces` class attribute of the `Bind` stanza class: the
declared logical attribute names, a set built from the four-name tuple. -/
def interfaces : List String := ["name", "default", "log", "error"]

/-- The `sub_interfaces` class attribute of the `Bind` stanza class,
assigned `interfaces` itself. -/
def sub_interfaces : List String := interfaces

end Bind

/-- The credentials dict of the instance (`self.credentials = {}` in
`__init__`), modelled as a partial map from keys to values. -/
def Credentials : Type := String → Option String

/-- The `password` property getter: `self.credentials.get(password-key,
empty-string)`. -/
def password_get (c : Credentials) : String :=
  (c "password").getD ""

/-- The `password` property setter: stores the value under the
password key of the credentials dict. -/
def password_set (c : Credentials) (value : String) : Credentials :=
  fun k => if k = "password" then some value else c k

/-- A handler whose result is always truthy. -/
def hTrue : Handler := fun _ => true

/-- A handler whose result is always falsy. -/
def hFalse : Handler := fun _ => false

/-- Fixture: two registrations with distinct names, in an order that the
sort must invert. -/
def wCalls : List RegCall :=
  [⟨"a", hFalse, false, 10⟩, ⟨"b", hFalse, false, 5⟩]

/-- Fixture: the registry obtained by registering the two calls of
`wCalls`. -/
def wReg1 : Registry := registerAll Registry.empty wCalls

/-- Fixture: a restart-class feature at order 0 followed by a plain
feature at order 10. -/
def wReg2 : Registry :=
  registerAll Registry.empty
    [⟨"tls", hTrue, true, 0⟩, ⟨"bind", hFalse, false, 10⟩]

/-- Fixture: an order entry whose name has no handler-dict entry. -/
def r1 : Registry :=
  { handlers := fun _ => none, order := [(1, "a")] }

theorem keyLT_of_keyLE_of_ne {a b : Key} (hle : keyLE a b) (hne : a.2 ≠ b.2) :
    keyLT a b := by
  rcases hle with h | ⟨e, s⟩
  · exact Or.inl h
  · exact Or.inr ⟨e, lt_of_le_of_ne s hne⟩

theorem not_keyLT_of_keyLE {a b : Key} (h : keyLE a b) : ¬ keyLT b a := by
  rintro (hlt | ⟨e, s⟩)
  · rcases h with h' | ⟨e', _⟩
    · exact absurd (h'.trans hlt) (lt_irrefl _)
    · exact absurd (e' ▸ hlt) (lt_irrefl _)
  · rcases h with h' | ⟨e', s'⟩
    · exact absurd (e ▸ h') (lt_irrefl _)
    · exact absurd (s.trans_le s') (lt_irrefl _)

theorem keyLT_irrefl (a : Key) : ¬ keyLT a a := by
  rintro (h | ⟨_, h⟩) <;> exact absurd h (lt_irrefl _)

/-- The order list produced by `register_feature` is sorted: the method
re-sorts after every insertion. -/
theorem register_feature_sorted (r : Registry) (name : String)
    (handler : Handler) (restart : Bool) (order : Nat) :
    (register_feature r name handler restart order).order.Pairwise keyLE :=
  List.sorted_insertionSort keyLE _

/-- The order list left behind by a successful `unregister_feature` is
sorted as well. -/
theorem unregister_feature_sorted (r : Registry) (name : String) (order : Nat)
    (hmem : (order, name) ∈ r.order) :
    (unregister_feature r name order).2.order.Pairwise keyLE := by
  simp only [unregister_feature, if_pos hmem]
  exact List.sorted_insertionSort keyLE _

/-- Registration sequences starting from the empty registry always leave
the order list sorted. -/
theorem registerAll_sorted (cs : List RegCall) :
    ∀ r : Registry, r.order.Pairwise keyLE →
      (registerAll r cs).order.Pairwise keyLE := by
  induction cs with
  | nil => intro r h; exact h
  | cons c cs ih =>
    intro r _
    exact ih _ (register_feature_sorted r c.name c.handler c.restart c.order)

/-- The order list after a registration sequence is a permutation of the
initial order list extended by one `(order, name)` pair per call. -/
theorem registerAll_perm (cs : List RegCall) :
    ∀ r : Registry,
      (registerAll r cs).order.Perm
        (r.order ++ cs.map (fun c => ((c.order, c.name) : Key))) := by
  induction cs with
  | nil => intro r; simp [registerAll]
  | cons c cs ih =>
    intro r
    have h1 := ih (register_feature r c.name c.handler c.restart c.order)
    have h2 : (register_feature r c.name c.handler c.restart c.order).order.Perm
        (r.order ++ [((c.order, c.name) : Key)]) :=
      List.perm_insertionSort keyLE _
    have h3 := h1.trans
      (h2.append_right (cs.map (fun c => ((c.order, c.name) : Key))))
    simpa [registerAll, List.append_assoc] using h3

/-- C3 counterexample: registering the name a at order 1 and then again
at order 2 leaves two `(order, name)` pairs for that name in the ordering
index; the old pair is not removed. -/
theorem register_twice_duplicates :
    (register_feature (register_feature Registry.empty "a" hTrue false 1)
        "a" hTrue false 2).order = [(1, "a"), (2, "a")] ∧
    (register_feature (register_feature Registry.empty "a" hTrue false 1)
        "a" hTrue false 2).order.countP (fun p => p.2 == "a") = 2 := by
  constructor <;> decide

/-- C3 (amended): `register_feature` overwrites the handler-dict entry
for the name (last registration wins for handler and restart flag), but
it appends the new `(order, name)` pair to the ordering index without
removing any previous pair for that name: the count of pairs carrying the
name always grows by one. -/
theorem register_feature_appends_key (r : Registry) (name : String)
    (handler : Handler) (restart : Bool) (order : Nat) :
    (register_feature r name handler restart order).handlers name =
      some (handler, restart) ∧
    (register_feature r name handler restart order).order.countP
        (fun p => p.2 == name) =
      r.order.countP (fun p => p.2 == name) + 1 := by
  constructor
  · simp [register_feature]
  · have hperm := List.perm_insertionSort keyLE (r.order ++ [(order, name)])
    simp only [register_feature]
    rw [hperm.countP_eq, List.countP_append]
    simp

/-- C4 counterexample: with the name a registered at order 1, calling
`unregister_feature` with the mismatched order 2 raises (returns the
error value) yet mutates the registry: the handler entry for a is gone. -/
theorem unregister_mismatch_mutates :
    (unregister_feature (register_feature Registry.empty "a" hTrue false 1)
        "a" 2).1 = none ∧
    (unregister_feature (register_feature Registry.empty "a" hTrue false 1)
        "a" 2).2 ≠ register_feature Registry.empty "a" hTrue false 1 := by
  refine ⟨rfl, fun h => ?_⟩
  exact absurd (congrArg (fun rr => (rr.handlers "a").isSome) h) (by decide)

/-- C4 (amended): when the exact `(order, name)` pair is absent from the
ordering index, `unregister_feature` fails with an error and leaves the
ordering index unchanged, but the call is not atomic: the handler entry
for the name has already been deleted when the error is raised, so the
handler map ends without an entry for the name. -/
theorem unregister_feature_failure (r : Registry) (name : String) (order : Nat)
    (habs : (order, name) ∉ r.order) :
    (unregister_feature r name order).1 = none ∧
    (unregister_feature r name order).2.order = r.order ∧
    (unregister_feature r name order).2.handlers name = none := by
  rcases hh : r.handlers name with _ | v
  · simp [unregister_feature, habs, hh]
  · simp [unregister_feature, habs, hh]

theorem unregister_feature_failure_witness :
    ((2, "a") ∉ (register_feature Registry.empty "a" hTrue false 1).order) ∧
    ((unregister_feature (register_feature Registry.empty "a" hTrue false 1)
        "a" 2).1 = none ∧
     (unregister_feature (register_feature Registry.empty "a" hTrue false 1)
        "a" 2).2.order =
       (register_feature Registry.empty "a" hTrue false 1).order ∧
     (unregister_feature (register_feature Registry.empty "a" hTrue false 1)
        "a" 2).2.handlers "a" = none) :=
  ⟨by decide,
   unregister_feature_failure (register_feature Registry.empty "a" hTrue false 1)
     "a" 2 (by decide)⟩

/-- C10: when the exact `(order, name)` pair is present in the ordering
index but the name has no handler-dict entry, `unregister_feature`
succeeds (no error is raised for the absent handler entry), leaves the
handler map untouched, and removes one occurrence of the pair from the
ordering index. -/
theorem unregister_feature_missing_handler (r : Registry) (name : String)
    (order : Nat) (hmem : (order, name) ∈ r.order)
    (hnone : r.handlers name = none) :
    (unregister_feature r name order).1.isSome = true ∧
    (unregister_feature r name order).2.handlers = r.handlers ∧
    (unregister_feature r name order).2.order.count (order, name) =
      r.order.count (order, name) - 1 := by
  have hperm := List.perm_insertionSort keyLE (r.order.erase (order, name))
  refine ⟨?_, ?_, ?_⟩
  · simp [unregister_feature, hmem, hnone]
  · simp [unregister_feature, hmem, hnone]
  · simp only [unregister_feature, hnone, Option.isSome_none, if_pos hmem]
    rw [List.count_eq_countP, hperm.countP_eq, ← List.count_eq_countP,
        List.count_erase_self]

theorem unregister_feature_missing_handler_witness :
    ((1, "a") ∈ r1.order ∧ r1.handlers "a" = none) ∧
    ((unregister_feature r1 "a" 1).1.isSome = true ∧
     (unregister_feature r1 "a" 1).2.handlers = r1.handlers ∧
     (unregister_feature r1 "a" 1).2.order.count (1, "a") =
       r1.order.count (1, "a") - 1) :=
  ⟨⟨by decide, rfl⟩, unregister_feature_missing_handler r1 "a" 1 (by decide) rfl⟩

/-- C6: after every `connected` event the reset handler sets all five
connection-state fields to their zero values, regardless of the prior
values, and this is the state the first feature handler of the new
generation observes. -/
theorem connected_resets_state (s : ConnectionState) :
    stateAtGenerationStart s = ConnectionState.zero ∧
    (stateAtGenerationStart s).authenticated = false ∧
    (stateAtGenerationStart s).sessionstarted = false ∧
    (stateAtGenerationStart s).bound = false ∧
    (stateAtGenerationStart s).bindfail = false ∧
    (stateAtGenerationStart s).features = [] :=
  ⟨rfl, rfl, rfl, rfl, rfl, rfl⟩

/-- C7 (code bug evidence): calling `connect` with the empty default
address evaluates the tuple indexing first and faults (IndexError,
modelled by `none`); no host resolution happens for the empty-address
call, contrary to the claim and to the method docstring. -/
theorem connect_empty_address_faults :
    connect ([] : List String) true true false = none := rfl

/-- C8: every name in the `sub_interfaces` set of the `Bind` stanza class
is also a member of its `interfaces` set (the two class attributes are
the same set of the four names). -/
theorem bind_sub_interfaces_subset (x : String)
    (hx : x ∈ Bind.sub_interfaces) :
    x ∈ Bind.interfaces ∧
    Bind.sub_interfaces = ["name", "default", "log", "error"] :=
  ⟨hx, rfl⟩

theorem bind_sub_interfaces_subset_witness :
    ("name" ∈ Bind.sub_interfaces) ∧
    ("name" ∈ Bind.interfaces ∧
     Bind.sub_interfaces = ["name", "default", "log", "error"]) :=
  ⟨by decide, bind_sub_interfaces_subset "name" (by decide)⟩

/-- C9: the `password` property round-trips through the credentials
dict — after the setter stores a value, the getter returns exactly that
value — and when the password key is absent the getter returns the empty
string instead of raising. -/
theorem password_roundtrip (c : Credentials) (v : String) :
    password_get (password_set c v) = v ∧
    (c "password" = none → password_get c = "") := by
  constructor
  · simp [password_get, password_set]
  · intro h
    simp [password_get, h]

theorem password_roundtrip_witness :
    password_get (password_set (fun _ => none) "secret") = "secret" ∧
    password_get (fun _ => none) = "" :=
  ⟨(password_roundtrip (fun _ => none) "secret").1,
   (password_roundtrip (fun _ => none) "secret").2 rfl⟩

/-- The entries whose handlers a walk invokes form a sublist of the order
list it walked. -/
theorem featureWalk_sublist (handlers : String → Option (Handler × Bool))
    (fs : Features) :
    ∀ (l ps : List Key) (b : Bool),
      featureWalk handlers fs l = some (ps, b) → ps.Sublist l := by
  intro l
  induction l with
  | nil =>
    intro ps b h
    simp only [featureWalk, Option.some.injEq, Prod.mk.injEq] at h
    rw [← h.1]
  | cons p rest ih =>
    intro ps b h
    simp only [featureWalk] at h
    split at h
    · split at h
      · exact absurd h (by simp)
      · split at h
        · simp only [Option.some.injEq, Prod.mk.injEq] at h
          rw [← h.1]
          exact (List.nil_sublist rest).cons₂ p
        · rcases ho : featureWalk handlers fs rest with _ | q
          · rw [ho] at h
            exact absurd h (by simp)
          · rw [ho] at h
            simp only [Option.map_some', Option.some.injEq, Prod.mk.injEq] at h
            rw [← h.1]
            exact (ih q.1 q.2 (by rw [ho])).cons₂ p
    · exact (ih ps b h).cons p

/-- When the walk reports a restart, the invoked entries end in the
restarting feature: one whose handler returned a truthy value and whose
restart flag is set. -/
theorem featureWalk_restart (handlers : String → Option (Handler × Bool))
    (fs : Features) :
    ∀ (l ps : List Key),
      featureWalk handlers fs l = some (ps, true) →
      ∃ (ps₀ : List Key) (q : Key), ps = ps₀ ++ [q] ∧
        (handlers q.2).any (fun hr => hr.1 fs && hr.2) = true := by
  intro l
  induction l with
  | nil =>
    intro ps h
    simp only [featureWalk, Option.some.injEq, Prod.mk.injEq] at h
    exact absurd h.2 (by simp)
  | cons p rest ih =>
    intro ps h
    simp only [featureWalk] at h
    split at h
    · split at h
      · exact absurd h (by simp)
      · rename_i heq
        split at h
        · rename_i hcond
          simp only [Option.some.injEq, Prod.mk.injEq] at h
          refine ⟨[], p, ?_, ?_⟩
          · rw [← h.1]
            rfl
          · rw [heq]
            simpa using hcond
        · rcases ho : featureWalk handlers fs rest with _ | q'
          · rw [ho] at h
            exact absurd h (by simp)
          · rw [ho] at h
            simp only [Option.map_some', Option.some.injEq, Prod.mk.injEq] at h
            obtain ⟨ps₀, q, hshape, hq⟩ := ih q'.1 (by rw [ho, ← h.2])
            refine ⟨p :: ps₀, q, ?_, hq⟩
            rw [← h.1, hshape]
            rfl
    · exact ih ps h

/-- When no invoked entry has a truthy handler result together with a set
restart flag, the walk reports no restart and visits exactly the
announced entries of the whole order list. -/
theorem featureWalk_no_restart (handlers : String → Option (Handler × Bool))
    (fs : Features) :
    ∀ (l ps : List Key) (b : Bool),
      featureWalk handlers fs l = some (ps, b) →
      (∀ p ∈ ps, (handlers p.2).any (fun hr => hr.1 fs && hr.2) = false) →
      b = false ∧ ps = l.filter (fun p => decide (p.2 ∈ fs)) := by
  intro l
  induction l with
  | nil =>
    intro ps b h _
    simp only [featureWalk, Option.some.injEq, Prod.mk.injEq] at h
    exact ⟨h.2.symm, by simp [← h.1]⟩
  | cons p rest ih =>
    intro ps b h hnor
    simp only [featureWalk] at h
    split at h
    · rename_i hmem
      split at h
      · exact absurd h (by simp)
      · rename_i heq
        split at h
        · rename_i hcond
          simp only [Option.some.injEq, Prod.mk.injEq] at h
          have hp : p ∈ ps := by
            rw [← h.1]
            simp
          have hfalse := hnor p hp
          rw [heq] at hfalse
          simp only [Option.any_some] at hfalse
          rw [hcond] at hfalse
          exact absurd hfalse (by simp)
        · rcases ho : featureWalk handlers fs rest with _ | q'
          · rw [ho] at h
            exact absurd h (by simp)
          · rw [ho] at h
            simp only [Option.map_some', Option.some.injEq, Prod.mk.injEq] at h
            obtain ⟨h1, h2⟩ := h
            have hnor' : ∀ x ∈ q'.1,
                (handlers x.2).any (fun hr => hr.1 fs && hr.2) = false := by
              intro x hx
              exact hnor x (by rw [← h1]; exact List.mem_cons_of_mem p hx)
            obtain ⟨hb, hfilter⟩ := ih q'.1 q'.2 (by rw [ho]) hnor'
            constructor
            · rw [← h2]
              exact hb
            · rw [← h1, hfilter]
              simp [List.filter_cons, hmem]
    · rename_i hmem
      obtain ⟨hb, hfilter⟩ := ih ps b h hnor
      refine ⟨hb, ?_⟩
      rw [hfilter]
      simp [List.filter_cons, hmem]

/-- C1: for every sequence of `register_feature` calls with pairwise
distinct names and every announcement, the handlers invoked by
`_handle_stream_features` are visited in strictly ascending
`(order, name)` key order: ascending numeric order, ties broken by
ascending lexical name order. -/
theorem ordered_invocation (cs : List RegCall)
    (hnodup : (cs.map RegCall.name).Nodup) (fs : Features)
    (ps : List Key) (restarted : Bool) (events : List String)
    (hres : handle_stream_features (registerAll Registry.empty cs) fs =
      some (ps, restarted, events)) :
    ps.Pairwise keyLT := by
  set r := registerAll Registry.empty cs with hr
  have hsorted : r.order.Pairwise keyLE :=
    registerAll_sorted cs Registry.empty (by simp [Registry.empty])
  have hperm : r.order.Perm (cs.map (fun c => ((c.order, c.name) : Key))) := by
    have hp := registerAll_perm cs Registry.empty
    simpa [Registry.empty] using hp
  have hnames : (r.order.map Prod.snd).Nodup := by
    have hmapperm := hperm.map Prod.snd
    have hcomp : ((cs.map (fun c => ((c.order, c.name) : Key))).map Prod.snd) =
        cs.map RegCall.name := by
      rw [List.map_map]
      rfl
    rw [hcomp] at hmapperm
    exact hmapperm.nodup_iff.mpr hnodup
  have hpne : r.order.Pairwise (fun a b => a.2 ≠ b.2) := by
    rw [List.Nodup, List.pairwise_map] at hnames
    exact hnames
  have hplt : r.order.Pairwise keyLT :=
    (hsorted.and hpne).imp (fun hab => keyLT_of_keyLE_of_ne hab.1 hab.2)
  rcases ho : featureWalk r.handlers fs r.order with _ | w
  · rw [handle_stream_features, ho] at hres
    exact absurd hres (by simp)
  · rw [handle_stream_features, ho] at hres
    simp only [Option.map_some', Option.some.injEq, Prod.mk.injEq] at hres
    have hsub := featureWalk_sublist r.handlers fs r.order w.1 w.2 (by rw [ho])
    rw [← hres.1]
    exact hplt.sublist hsub

theorem ordered_invocation_witness :
    (wCalls.map RegCall.name).Nodup ∧
    List.Pairwise keyLT [((5 : Nat), "b"), ((10 : Nat), "a")] :=
  ⟨by decide,
   ordered_invocation wCalls (by decide) ["a", "b"] [(5, "b"), (10, "a")]
     false ["stream_negotiated"] rfl⟩

/-- C2: on a sorted registry, when the walk is truncated by a feature
whose handler returned a truthy value with the restart flag set, the
stream_negotiated event is not emitted, and no handler whose
`(order, name)` key is strictly greater than the restarting key was
invoked in that generation. -/
theorem restart_truncates (r : Registry) (fs : Features)
    (hsorted : r.order.Pairwise keyLE) (ps : List Key) (events : List String)
    (hres : handle_stream_features r fs = some (ps, true, events)) :
    events = [] ∧ ps ≠ [] ∧
    ps.all (fun p => !keyLTb (ps.getLastD (0, "")) p) = true ∧
    (r.handlers (ps.getLastD (0, "")).2).any
      (fun hr => hr.1 fs && hr.2) = true := by
  rcases ho : featureWalk r.handlers fs r.order with _ | w
  · rw [handle_stream_features, ho] at hres
    exact absurd hres (by simp)
  · rw [handle_stream_features, ho] at hres
    simp only [Option.map_some', Option.some.injEq, Prod.mk.injEq] at hres
    obtain ⟨hps, hb, hev⟩ := hres
    have hw : featureWalk r.handlers fs r.order = some (ps, true) := by
      rw [ho, ← hps, ← hb]
    obtain ⟨ps₀, q, hshape, hq⟩ := featureWalk_restart r.handlers fs r.order ps hw
    have hsub := featureWalk_sublist r.handlers fs r.order ps true hw
    have hpair : ps.Pairwise keyLE := hsorted.sublist hsub
    have hlast : ps.getLastD (0, "") = q := by
      rw [hshape]
      exact List.getLastD_concat _ _ _
    have hle : ∀ p ∈ ps₀, keyLE p q := by
      rw [hshape] at hpair
      have := (List.pairwise_append.mp hpair).2.2
      intro p hp
      exact this p hp q (by simp)
    refine ⟨?_, ?_, ?_, ?_⟩
    · rw [← hev, hb]
      simp
    · rw [hshape]
      simp
    · rw [List.all_eq_true]
      intro p hp
      rw [hlast]
      simp only [keyLTb, Bool.not_eq_true', decide_eq_false_iff_not]
      rw [hshape] at hp
      rcases List.mem_append.mp hp with hp0 | hpq
      · exact not_keyLT_of_keyLE (hle p hp0)
      · rw [List.mem_singleton.mp hpq]
        exact keyLT_irrefl q
    · rw [hlast]
      exact hq

theorem restart_truncates_witness :
    wReg2.order.Pairwise keyLE ∧
    (([] : List String) = [] ∧ ([((0 : Nat), "tls")] : List Key) ≠ [] ∧
     ([((0 : Nat), "tls")] : List Key).all
        (fun p => !keyLTb (([((0 : Nat), "tls")] : List Key).getLastD (0, "")) p) =
       true ∧
     (wReg2.handlers (([((0 : Nat), "tls")] : List Key).getLastD (0, "")).2).any
        (fun hr => hr.1 ["tls", "bind"] && hr.2) = true) :=
  ⟨by decide,
   restart_truncates wReg2 ["tls", "bind"] (by decide) [(0, "tls")] [] rfl⟩

/-- C5: when no invoked handler both returns a truthy value and carries a
set restart flag, `_handle_stream_features` reports no restart, completes
the full ordered walk over every announced entry, and emits the
stream_negotiated event exactly once. -/
theorem no_restart_completes (r : Registry) (fs : Features)
    (ps : List Key) (restarted : Bool) (events : List String)
    (hres : handle_stream_features r fs = some (ps, restarted, events))
    (hnor : ∀ p ∈ ps, (r.handlers p.2).any (fun hr => hr.1 fs && hr.2) = false) :
    restarted = false ∧
    ps = r.order.filter (fun p => decide (p.2 ∈ fs)) ∧
    events = ["stream_negotiated"] := by
  rcases ho : featureWalk r.handlers fs r.order with _ | w
  · rw [handle_stream_features, ho] at hres
    exact absurd hres (by simp)
  · rw [handle_stream_features, ho] at hres
    simp only [Option.map_some', Option.some.injEq, Prod.mk.injEq] at hres
    obtain ⟨h1, h2, h3⟩ := hres
    obtain ⟨hb, hfil⟩ := featureWalk_no_restart r.handlers fs r.order w.1 w.2
      (by rw [ho]) (by rw [h1]; exact hnor)
    refine ⟨by rw [← h2]; exact hb, by rw [← h1]; exact hfil, ?_⟩
    rw [← h3, hb]
    simp

theorem no_restart_completes_witness :
    false = false ∧
    ([((5 : Nat), "b"), ((10 : Nat), "a")] : List Key) =
      wReg1.order.filter (fun p => decide (p.2 ∈ (["a", "b"] : Features))) ∧
    (["stream_negotiated"] : List String) = ["stream_negotiated"] :=
  no_restart_completes wReg1 ["a", "b"] [(5, "b"), (10, "a")] false
    ["stream_negotiated"] rfl (by decide)

end SleekXMPP
